import Mathlib

/-!
Shallow embedding of `src/main.rs` of the invoicehandler repository.

The program watches a directory and a configuration file, reloads an
ordered list of (regex, replacement) rules when the configuration
changes, and renames every created or modified file according to the
first rule whose pattern matches the filename.

Effectful operations (filesystem probes, sleeps, renames) are embedded
by explicit counting: the embedded functions return, alongside the
value the Rust function returns, the number of times each external
operation would have been invoked, with the control flow translated
statement by statement from the source.
-/

namespace InvoiceHandler

/-- A compiled rule as the engine consumes it.  In the source a rule is a
pair `(Regex, String)`; the rename loop uses it only through
`regex.is_match(filename)` and `regex.replace(filename, replacement)`
(src/main.rs lines 115-117), so a rule is embedded as that pair of
functions. -/
structure Rule where
  is_match : String → Bool
  replace : String → String

/-- Process settings relevant to the embedded functions
(src/main.rs lines 9-13); `lock_retry_delay_ms` only parameterises the
sleep duration and plays no role in control flow. -/
structure Settings where
  max_lock_retries : Nat
  lock_retry_delay_ms : Nat

/-- Auxiliary loop of `wait_for_file_unlock` (src/main.rs lines 70-95):
the `for attempt in 1..=max` loop, starting at a given attempt number.
`probe k` is the outcome of the k-th `OpenOptions::open` call (1-based).
Returns the boolean result together with the number of open probes and
the number of sleeps performed from this attempt on. -/
def wfuLoop (probe : Nat → Bool) (maxRetries : Nat) (attempt : Nat) :
    Bool × Nat × Nat :=
  if attempt ≤ maxRetries then
    if probe attempt then
      (true, 1, 0)
    else if attempt < maxRetries then
      let r := wfuLoop probe maxRetries (attempt + 1)
      (r.1, r.2.1 + 1, r.2.2 + 1)
    else
      (false, 1, 0)
  else
    (false, 0, 0)
termination_by maxRetries + 1 - attempt

/-- Embedding of `wait_for_file_unlock` (src/main.rs lines 69-97):
probes the file up to `max_lock_retries` times, returning true on the
first successful open, sleeping after every failed probe except the
last; returns `(result, probes, sleeps)`. -/
def wait_for_file_unlock (probe : Nat → Bool) (settings : Settings) :
    Bool × Nat × Nat :=
  wfuLoop probe settings.max_lock_retries 1

/-- Decision produced by `apply_rename`.  The Rust function returns `()`
and communicates through logging and early returns; the embedding makes
each exit point a constructor.  `renamed` carries the filesystem rename
outcome (`fsOk`), distinguishing a successful rename from a failed one
(src/main.rs lines 122-132). -/
inductive ROutcome where
  | noSuchFile : ROutcome
  | badName : ROutcome
  | lockedSkip : ROutcome
  | renamed (oldName newName : String) (fsOk : Bool) : ROutcome
  | unchanged (oldName : String) : ROutcome
  | noMatch : ROutcome
deriving DecidableEq

/-- Trace of one `apply_rename` call: how many lock probes, sleeps,
`regex.is_match` evaluations and `fs::rename` calls it performs, and
which exit it takes. -/
structure RTrace where
  probes : Nat
  sleeps : Nat
  rulesEvaluated : Nat
  renameCalls : Nat
  outcome : ROutcome
deriving DecidableEq

/-- The rule-scanning loop of `apply_rename` (src/main.rs lines
115-136): first rule whose pattern matches wins; if the substitution
changes the name, `fs::rename` is called (its outcome is `renameOk`),
otherwise nothing happens; either way the loop returns.  Yields
`(outcome, rulesEvaluated, renameCalls)`. -/
def ruleLoop (filename : String) (renameOk : Bool) :
    List Rule → ROutcome × Nat × Nat
  | [] => (.noMatch, 0, 0)
  | r :: rest =>
    if r.is_match filename then
      let newFilename := r.replace filename
      if newFilename ≠ filename then
        (.renamed filename newFilename renameOk, 1, 1)
      else
        (.unchanged filename, 1, 0)
    else
      let t := ruleLoop filename renameOk rest
      (t.1, t.2.1 + 1, t.2.2)

/-- Environment of one candidate path, abstracting the filesystem state
`apply_rename` consults: whether `file_path.exists()` holds, the result
of `file_path.file_name().and_then(to_str)` (`none` models a missing
final component or one that is not valid UTF-8), the outcome of each
lock probe, and the outcome of the `fs::rename` call should one be
made. -/
structure PathEnv where
  fileExists : Bool
  fileName : Option String
  probe : Nat → Bool
  renameOk : Bool

/-- Embedding of `apply_rename` (src/main.rs lines 99-139): existence
check, filename extraction, lock-wait guard, then the first-match rule
loop, with every external effect counted in the trace. -/
def apply_rename (env : PathEnv) (rules : List Rule) (settings : Settings) :
    RTrace :=
  if !env.fileExists then
    ⟨0, 0, 0, 0, .noSuchFile⟩
  else
    match env.fileName with
    | none => ⟨0, 0, 0, 0, .badName⟩
    | some filename =>
      let w := wait_for_file_unlock env.probe settings
      if !w.1 then
        ⟨w.2.1, w.2.2, 0, 0, .lockedSkip⟩
      else
        let t := ruleLoop filename env.renameOk rules
        ⟨w.2.1, w.2.2, t.2.1, t.2.2, t.1⟩

/-- Error returned by `load_rules` when a pattern fails to compile:
the source formats a message naming the offending pattern and the
compile error (src/main.rs line 60); the embedding keeps the two
components structurally. -/
inductive LoadError where
  | invalidPattern (pattern : String) (msg : String) : LoadError
deriving DecidableEq

/-- Embedding of `load_rules` (src/main.rs lines 46-67), parametric in
the regex compiler `rnew` (modelling `Regex::new`) and the compiled
regex type `R`: compiles each (pattern, replacement) pair of the
`translations` section in order, failing fast with an error naming the
first pattern that does not compile; only a fully compiled list is ever
returned. -/
def load_rules {R : Type} (rnew : String → Except String R) :
    List (String × String) → Except LoadError (List (R × String))
  | [] => .ok []
  | (pattern, replacement) :: rest =>
    match rnew pattern with
    | .ok regex =>
      match load_rules rnew rest with
      | .ok rules => .ok ((regex, replacement) :: rules)
      | .error e => .error e
    | .error e => .error (.invalidPattern pattern e)

/-- The reload arm of the event loop (src/main.rs lines 243-251): a
successful reload replaces the rule set wholesale, a failed reload
keeps the old rules. -/
def reloadStep {A : Type} (oldRules : List A)
    (res : Except LoadError (List A)) : List A :=
  match res with
  | .ok newRules => newRules
  | .error _ => oldRules

/-- Event kinds as the router distinguishes them (src/main.rs lines
238-258): `Create` and `Modify` are processed, everything else falls to
the wildcard arm. -/
inductive EventKindM where
  | create : EventKindM
  | modify : EventKindM
  | remove : EventKindM
  | other : EventKindM
deriving DecidableEq

/-- A filesystem notification event: a kind and a list of paths, over
an abstract path type `P`. -/
structure FileEventM (P : Type) where
  kind : EventKindM
  paths : List P

/-- Classification of one event path, per the branch
`if path == &config_path` (src/main.rs line 241). -/
inductive Classification where
  | config : Classification
  | candidate : Classification
deriving DecidableEq

/-- Embedding of the path dispatch test (src/main.rs line 241): a path
is Config exactly when it equals the watched configuration file path
(Rust `PathBuf` equality, modelled as equality of the abstract path
type), and Candidate otherwise. -/
def classify {P : Type} [DecidableEq P] (configPath p : P) :
    Classification :=
  if p = configPath then .config else .candidate

/-- What the router did with one path: attempted a rule reload (Config
branch), or ran `apply_rename` with the given trace (Candidate
branch). -/
inductive PathAction where
  | configReload (succeeded : Bool) : PathAction
  | candidateRename (t : RTrace) : PathAction
deriving DecidableEq

/-- Processing of one path inside a Create/Modify event (src/main.rs
lines 240-255): a path equal to the config path triggers a reload
(keeping the old rules on failure), any other path goes through
`apply_rename`, which never changes the rule set.  `loadRes` is the
result the reload would obtain and `env p` the filesystem state of
path `p`. -/
def processPath {P : Type} [DecidableEq P] (configPath : P)
    (loadRes : Except LoadError (List Rule)) (env : P → PathEnv)
    (settings : Settings) (rules : List Rule) (p : P) :
    List Rule × PathAction :=
  if p = configPath then
    (reloadStep rules loadRes,
     .configReload (match loadRes with | .ok _ => true | .error _ => false))
  else
    (rules, .candidateRename (apply_rename (env p) rules settings))

/-- The `for path in &event.paths` loop (src/main.rs line 240): paths
are processed sequentially, each one unconditionally, threading the
rule set; returns the final rule set and one action per path. -/
def processPaths {P : Type} [DecidableEq P] (configPath : P)
    (loadRes : Except LoadError (List Rule)) (env : P → PathEnv)
    (settings : Settings) (rules : List Rule) :
    List P → List Rule × List PathAction
  | [] => (rules, [])
  | p :: rest =>
    let step := processPath configPath loadRes env settings rules p
    let t := processPaths configPath loadRes env settings step.1 rest
    (t.1, step.2 :: t.2)

/-- One iteration of the event loop (src/main.rs lines 236-259):
Create and Modify events have their paths processed; every other kind
matches the wildcard arm and does nothing. -/
def processEvent {P : Type} [DecidableEq P] (configPath : P)
    (loadRes : Except LoadError (List Rule)) (env : P → PathEnv)
    (settings : Settings) (rules : List Rule) (evt : FileEventM P) :
    List Rule × List PathAction :=
  match evt.kind with
  | .create =>
    processPaths configPath loadRes env settings rules evt.paths
  | .modify =>
    processPaths configPath loadRes env settings rules evt.paths
  | _ => (rules, [])

/-- Strips a literal character sequence from the front of a string
(as a character list), returning the remainder, or `none` when the
string does not start with it.  Building block for the model of the
concrete regexes of the specification scenarios. -/
def dropLit : List Char → List Char → Option (List Char)
  | [], s => some s
  | _ :: _, [] => none
  | c :: cs, d :: ds => if c = d then dropLit cs ds else none

/-- Splits off the maximal leading run of ASCII digits, modelling a
greedy `\d+` item. -/
def takeDigits : List Char → List Char × List Char
  | [] => ([], [])
  | c :: cs =>
    if c.isDigit then
      let t := takeDigits cs
      (c :: t.1, t.2)
    else
      ([], c :: cs)

/-- Match of the regex `invoice_(\d+)\.pdf` anchored at the start of
the given suffix: the literal `invoice_`, then a nonempty greedy digit
run (capture group 1), then the literal `.pdf`.  Since `.` is not a
digit, the greedy run is the only run the pattern can accept, so this
deterministic reading coincides with the regex crate semantics.
Returns `(group 1, remainder after the match)`. -/
def invMatchAt (s : List Char) : Option (List Char × List Char) :=
  match dropLit ("invoice_".data) s with
  | none => none
  | some s1 =>
    let d := takeDigits s1
    if d.1.isEmpty then none
    else
      match dropLit (".pdf".data) d.2 with
      | none => none
      | some s3 => some (d.1, s3)

/-- Leftmost match of `invoice_(\d+)\.pdf` within a string, modelling
the leftmost-match search of the regex crate: tries `invMatchAt` at
each position from the left.  Returns
`(text before the match, capture group 1, text after the match)`. -/
def invFind : List Char → Option (List Char × List Char × List Char)
  | [] =>
    match invMatchAt [] with
    | some m => some ([], m.1, m.2)
    | none => none
  | c :: cs =>
    match invMatchAt (c :: cs) with
    | some m => some ([], m.1, m.2)
    | none =>
      match invFind cs with
      | some f => some (c :: f.1, f.2.1, f.2.2)
      | none => none

/-- Model of `Regex::is_match` for the compiled pattern
`invoice_(\d+)\.pdf`. -/
def invoiceIsMatch (s : String) : Bool :=
  (invFind s.data).isSome

/-- Model of `Regex::replace` for the pattern `invoice_(\d+)\.pdf` with
replacement template `INV-$1.pdf`: substitutes the template — `$1`
expanded to capture group 1 — for the leftmost match only, leaving the
rest of the string untouched; a string with no match is returned
unchanged. -/
def invoiceReplace (s : String) : String :=
  match invFind s.data with
  | some f => ⟨f.1 ++ ("INV-".data ++ f.2.1 ++ ".pdf".data) ++ f.2.2⟩
  | none => s

/-- First (hence, as modelled, any) rule of the specification
scenarios: pattern `invoice_(\d+)\.pdf`, replacement `INV-$1.pdf`. -/
def invoiceRule : Rule :=
  { is_match := invoiceIsMatch, replace := invoiceReplace }

/-- Model of `Regex::replace` for the pattern `.*` with replacement
template `unmatched_$0`: the leftmost match of `.*` starts at position
0 and greedily covers every character up to the first newline (`.`
does not match a newline), so that first match — the whole string for
any filename without newlines — is replaced by `unmatched_` followed
by the matched text (`$0`). -/
def dotStarReplace (s : String) : String :=
  ⟨"unmatched_".data ++ s.data.takeWhile (fun c => c ≠ Char.ofNat 10)
    ++ s.data.dropWhile (fun c => c ≠ Char.ofNat 10)⟩

/-- Second rule of the specification scenarios: pattern `.*` (which
matches every string, possibly emptily), replacement `unmatched_$0`. -/
def catchAllRule : Rule :=
  { is_match := fun _ => true, replace := dotStarReplace }

lemma wfuLoop_success (probe : Nat → Bool) (maxR : Nat) :
    ∀ n a, probe (a + n) = true →
    (∀ j, a ≤ j → j < a + n → probe j = false) →
    a + n ≤ maxR → wfuLoop probe maxR a = (true, n + 1, n) := by
  intro n
  induction n with
  | zero =>
    intro a hp _ hle
    rw [wfuLoop]
    simp only [Nat.add_zero] at hp hle
    simp [hle, hp]
  | succ n ih =>
    intro a hp hprev hle
    have hpa : probe a = false := hprev a (Nat.le_refl a) (by omega)
    have halt : a ≤ maxR := by omega
    have hlt : a < maxR := by omega
    have hrec := ih (a + 1)
      (by rw [show a + 1 + n = a + (n + 1) by omega]; exact hp)
      (fun j hj1 hj2 => hprev j (by omega) (by omega)) (by omega)
    rw [wfuLoop]
    simp [halt, hpa, hlt, hrec]

lemma wfuLoop_fail (probe : Nat → Bool) (maxR : Nat) :
    ∀ n a, a + n = maxR →
    (∀ j, a ≤ j → j ≤ maxR → probe j = false) →
    wfuLoop probe maxR a = (false, n + 1, n) := by
  intro n
  induction n with
  | zero =>
    intro a heq hall
    have hpa : probe a = false := hall a (Nat.le_refl a) (by omega)
    rw [wfuLoop]
    have h1 : a ≤ maxR := by omega
    have h2 : ¬ a < maxR := by omega
    simp [h1, h2, hpa]
  | succ n ih =>
    intro a heq hall
    have hpa : probe a = false := hall a (Nat.le_refl a) (by omega)
    have halt : a ≤ maxR := by omega
    have hlt : a < maxR := by omega
    have hrec := ih (a + 1) (by omega)
      (fun j hj1 hj2 => hall j (by omega) hj2)
    rw [wfuLoop]
    simp [halt, hpa, hlt, hrec]

/-- C4: for `max_lock_retries ≥ 1`, the guard makes exactly k open
probes and returns true when the k-th probe (k ≤ max) is the first
success, sleeping exactly k-1 times — after every failed probe but the
final one; and when no probe among the first `max_lock_retries`
succeeds it makes exactly `max_lock_retries` probes, sleeps
`max_lock_retries - 1` times and returns false. -/
theorem wait_for_file_unlock_probe_count (probe : Nat → Bool)
    (settings : Settings) (hmax : 1 ≤ settings.max_lock_retries) :
    (∀ k, 1 ≤ k → k ≤ settings.max_lock_retries → probe k = true →
      (∀ j, 1 ≤ j → j < k → probe j = false) →
      wait_for_file_unlock probe settings = (true, k, k - 1)) ∧
    ((∀ j, 1 ≤ j → j ≤ settings.max_lock_retries → probe j = false) →
      wait_for_file_unlock probe settings =
        (false, settings.max_lock_retries,
          settings.max_lock_retries - 1)) := by
  constructor
  · intro k hk1 hkm hpk hprev
    have h := wfuLoop_success probe settings.max_lock_retries (k - 1) 1
      (by rw [show 1 + (k - 1) = k by omega]; exact hpk)
      (fun j hj1 hj2 => hprev j hj1 (by omega)) (by omega)
    rw [show k - 1 + 1 = k by omega] at h
    exact h
  · intro hall
    have h := wfuLoop_fail probe settings.max_lock_retries
      (settings.max_lock_retries - 1) 1 (by omega)
      (fun j hj1 hj2 => hall j hj1 hj2)
    rw [show settings.max_lock_retries - 1 + 1 =
      settings.max_lock_retries by omega] at h
    exact h

/-- Witness for C4: with probes succeeding first at attempt 3 and 5
allowed attempts, the guard probes 3 times and sleeps twice; with
probes never succeeding it probes 5 times and sleeps 4 times. -/
theorem wait_for_file_unlock_probe_count_witness :
    wait_for_file_unlock (fun k => k == 3) ⟨5, 100⟩ = (true, 3, 2) ∧
    wait_for_file_unlock (fun _ => false) ⟨5, 100⟩ = (false, 5, 4) := by
  constructor
  · exact (wait_for_file_unlock_probe_count (fun k => k == 3) ⟨5, 100⟩
      (by norm_num)).1 3 (by norm_num) (by norm_num) (by rfl)
      (by intro j hj1 hj2; interval_cases j <;> rfl)
  · exact (wait_for_file_unlock_probe_count (fun _ => false) ⟨5, 100⟩
      (by norm_num)).2 (fun j hj1 hj2 => rfl)

lemma ruleLoop_append_nomatch (fn : String) (rOk : Bool)
    (rs1 rs2 : List Rule) (h : ∀ q ∈ rs1, q.is_match fn = false) :
    ruleLoop fn rOk (rs1 ++ rs2) =
      ((ruleLoop fn rOk rs2).1,
       (ruleLoop fn rOk rs2).2.1 + rs1.length,
       (ruleLoop fn rOk rs2).2.2) := by
  induction rs1 with
  | nil => simp
  | cons q rs ih =>
    have hq : q.is_match fn = false := h q (List.mem_cons_self q rs)
    have ih2 := ih (fun r hr => h r (List.mem_cons_of_mem q hr))
    simp [List.cons_append, ruleLoop, hq, ih2, Nat.add_assoc]

/-- C1: the rename decision is determined solely by the first rule, in
declared order, whose pattern matches the filename.  If every rule
before `r` fails to match and `r` matches, the loop produces exactly
the decision `r` dictates, evaluates exactly `rs1.length + 1` rule
patterns (so no rule after `r` is ever evaluated), and the result does
not depend on what rules follow `r`. -/
theorem first_match_wins (fn : String) (rOk : Bool) (rs1 : List Rule)
    (r : Rule) (rs2 rs3 : List Rule)
    (h1 : ∀ q ∈ rs1, q.is_match fn = false)
    (h2 : r.is_match fn = true) :
    ruleLoop fn rOk (rs1 ++ r :: rs2) =
      ((if r.replace fn ≠ fn then
          ROutcome.renamed fn (r.replace fn) rOk
        else ROutcome.unchanged fn),
       rs1.length + 1,
       if r.replace fn ≠ fn then 1 else 0) ∧
    ruleLoop fn rOk (rs1 ++ r :: rs2) =
      ruleLoop fn rOk (rs1 ++ r :: rs3) := by
  have hstep : ∀ rs : List Rule, ruleLoop fn rOk (r :: rs) =
      ((if r.replace fn ≠ fn then
          ROutcome.renamed fn (r.replace fn) rOk
        else ROutcome.unchanged fn),
       1,
       if r.replace fn ≠ fn then 1 else 0) := by
    intro rs
    by_cases hne : r.replace fn = fn
    · simp [ruleLoop, h2, hne]
    · simp [ruleLoop, h2, hne]
  constructor
  · rw [ruleLoop_append_nomatch fn rOk rs1 (r :: rs2) h1, hstep]
    simp [Nat.add_comm]
  · rw [ruleLoop_append_nomatch fn rOk rs1 (r :: rs2) h1,
      ruleLoop_append_nomatch fn rOk rs1 (r :: rs3) h1, hstep, hstep]

/-- Witness for C1: with the two scenario rules, a filename the first
rule does not match is decided by the catch-all rule, two patterns are
evaluated, and appending a further rule changes nothing. -/
theorem first_match_wins_witness :
    ruleLoop "readme.txt" true ([invoiceRule] ++ catchAllRule :: []) =
      (ROutcome.renamed "readme.txt" "unmatched_readme.txt" true, 2, 1) ∧
    ruleLoop "readme.txt" true ([invoiceRule] ++ catchAllRule :: []) =
      ruleLoop "readme.txt" true
        ([invoiceRule] ++ catchAllRule :: [invoiceRule]) := by
  have h := first_match_wins "readme.txt" true [invoiceRule] catchAllRule
    [] [invoiceRule] (by decide) (by rfl)
  refine ⟨?_, h.2⟩
  rw [h.1]
  decide

/-- C3: when the first matching rule's substitution leaves the
filename unchanged, the loop stops at that rule with no rename call
(renameCalls = 0), reports the unchanged outcome rather than a rename,
and later rules are not consulted. -/
theorem noop_rename_stops (fn : String) (rOk : Bool) (rs1 : List Rule)
    (r : Rule) (rs2 rs3 : List Rule)
    (h1 : ∀ q ∈ rs1, q.is_match fn = false)
    (h2 : r.is_match fn = true)
    (h3 : r.replace fn = fn) :
    ruleLoop fn rOk (rs1 ++ r :: rs2) =
      (ROutcome.unchanged fn, rs1.length + 1, 0) ∧
    ruleLoop fn rOk (rs1 ++ r :: rs2) =
      ruleLoop fn rOk (rs1 ++ r :: rs3) := by
  have h := first_match_wins fn rOk rs1 r rs2 rs3 h1 h2
  refine ⟨?_, h.2⟩
  rw [h.1]
  simp [h3]

/-- Witness for C3: a matching rule whose substitution is the identity
yields the unchanged outcome with zero rename calls, and the rule
after it is never consulted. -/
theorem noop_rename_stops_witness :
    ruleLoop "a.txt" true
        ([] ++ (⟨fun _ => true, fun s => s⟩ : Rule) :: [catchAllRule]) =
      (ROutcome.unchanged "a.txt", 1, 0) := by
  have h := noop_rename_stops "a.txt" true []
    (⟨fun _ => true, fun s => s⟩ : Rule) [catchAllRule] []
    (by intro q hq; exact absurd hq (List.not_mem_nil q))
    (by rfl) (by rfl)
  exact h.1

/-- C6: with the two scenario rules, `invoice_42.pdf` is renamed to
`INV-42.pdf` by rule 1 with rule 2 never evaluated (exactly one
pattern evaluation), and `readme.txt` is renamed to
`unmatched_readme.txt` by rule 2 after rule 1 fails to match. -/
theorem scenario_two_rules :
    ruleLoop "invoice_42.pdf" true [invoiceRule, catchAllRule] =
      (ROutcome.renamed "invoice_42.pdf" "INV-42.pdf" true, 1, 1) ∧
    ruleLoop "readme.txt" true [invoiceRule, catchAllRule] =
      (ROutcome.renamed "readme.txt" "unmatched_readme.txt" true, 2, 1) := by
  decide

/-- C5: when the lock-wait guard reports failure for an existing path
with a valid filename, `apply_rename` stops there: the outcome is the
locked skip, the rule loop is never entered (zero pattern
evaluations), no rename call is made, and the result does not depend
on the rule list at all. -/
theorem locked_skip_stops (env : PathEnv) (settings : Settings)
    (fn : String) (rules rulesB : List Rule)
    (hex : env.fileExists = true) (hfn : env.fileName = some fn)
    (hlock : (wait_for_file_unlock env.probe settings).1 = false) :
    apply_rename env rules settings = apply_rename env rulesB settings ∧
    (apply_rename env rules settings).outcome = ROutcome.lockedSkip ∧
    (apply_rename env rules settings).rulesEvaluated = 0 ∧
    (apply_rename env rules settings).renameCalls = 0 := by
  simp [apply_rename, hex, hfn, hlock]

/-- Witness for C5: a path whose single allowed probe fails is skipped
with no rule evaluation and no rename, independently of the rules. -/
theorem locked_skip_stops_witness :
    apply_rename ⟨true, some "f.txt", fun _ => false, true⟩ [] ⟨1, 0⟩ =
      apply_rename ⟨true, some "f.txt", fun _ => false, true⟩
        [catchAllRule] ⟨1, 0⟩ ∧
    (apply_rename ⟨true, some "f.txt", fun _ => false, true⟩ []
      ⟨1, 0⟩).outcome = ROutcome.lockedSkip := by
  have hl : wait_for_file_unlock (fun _ => false)
      ({ max_lock_retries := 1, lock_retry_delay_ms := 0 } : Settings) =
      (false, 1, 0) :=
    wfuLoop_fail (fun _ => false) 1 0 1 rfl (fun j hj1 hj2 => rfl)
  have h := locked_skip_stops ⟨true, some "f.txt", fun _ => false, true⟩
    ⟨1, 0⟩ "f.txt" [] [catchAllRule] rfl rfl (by rw [hl])
  exact ⟨h.1, h.2.1⟩

/-- C10: for an existing path whose final component is missing or not
valid UTF-8 (modelled by `fileName = none`), `apply_rename` returns
immediately: zero probes, zero sleeps, zero pattern evaluations, zero
rename calls, for every rule list and settings. -/
theorem bad_name_early_return (env : PathEnv) (settings : Settings)
    (rules : List Rule) (hex : env.fileExists = true)
    (hfn : env.fileName = none) :
    apply_rename env rules settings =
      ⟨0, 0, 0, 0, ROutcome.badName⟩ := by
  simp [apply_rename, hex, hfn]

/-- Witness for C10: a concrete path with no extractable filename is
dismissed before any probe or rule evaluation. -/
theorem bad_name_early_return_witness :
    apply_rename ⟨true, none, fun _ => false, true⟩
        [invoiceRule, catchAllRule] ⟨30, 1000⟩ =
      ⟨0, 0, 0, 0, ROutcome.badName⟩ :=
  bad_name_early_return ⟨true, none, fun _ => false, true⟩ ⟨30, 1000⟩
    [invoiceRule, catchAllRule] rfl rfl

/-- C2: rule loading is atomic with respect to failure.  If every
pattern before `(p, rep)` compiles and `p` is the first pattern that
fails, `load_rules` returns the error naming `p` (so no rules at all
are produced), and the reload arm of the event loop keeps the
previously installed rule set completely unchanged. -/
theorem load_rules_atomic {R : Type} (rnew : String → Except String R)
    (good : List (String × String)) (p rep : String) (e : String)
    (rest : List (String × String)) (old : List (R × String))
    (hgood : ∀ q ∈ good, ∃ r, rnew q.1 = Except.ok r)
    (hbad : rnew p = Except.error e) :
    load_rules rnew (good ++ (p, rep) :: rest) =
      Except.error (LoadError.invalidPattern p e) ∧
    reloadStep old (load_rules rnew (good ++ (p, rep) :: rest)) =
      old := by
  have hmain : load_rules rnew (good ++ (p, rep) :: rest) =
      Except.error (LoadError.invalidPattern p e) := by
    induction good with
    | nil => simp [load_rules, hbad]
    | cons q qs ih =>
      obtain ⟨r, hr⟩ := hgood q (List.mem_cons_self q qs)
      have ih2 := ih (fun q2 hq2 => hgood q2 (List.mem_cons_of_mem q hq2))
      cases q with
      | mk qp qr =>
        simp only [List.cons_append, load_rules, List.append_eq] at hr ⊢
        rw [hr, ih2]
  exact ⟨hmain, by rw [hmain]; rfl⟩

/-- Witness for C2: one valid pattern followed by one failing pattern
aborts the whole load with an error naming the failing pattern, and a
reload from this result keeps the old rule set. -/
theorem load_rules_atomic_witness :
    load_rules
        (fun s => if s = "[" then Except.error "bad" else Except.ok ())
        ([("a", "b")] ++ ("[", "c") :: []) =
      Except.error (LoadError.invalidPattern "[" "bad") ∧
    reloadStep [((), "old")]
        (load_rules
          (fun s => if s = "[" then Except.error "bad" else Except.ok ())
          ([("a", "b")] ++ ("[", "c") :: [])) =
      [((), "old")] :=
  load_rules_atomic
    (fun s => if s = "[" then Except.error "bad" else Except.ok ())
    [("a", "b")] "[" "c" "bad" [] [((), "old")]
    (by intro q hq; simp at hq; exact ⟨(), by rw [hq]; rfl⟩)
    (by rfl)

lemma processPaths_append {P : Type} [DecidableEq P] (configPath : P)
    (loadRes : Except LoadError (List Rule)) (env : P → PathEnv)
    (settings : Settings) :
    ∀ (ps qs : List P) (rules : List Rule),
    processPaths configPath loadRes env settings rules (ps ++ qs) =
      ((processPaths configPath loadRes env settings
          (processPaths configPath loadRes env settings rules ps).1
          qs).1,
       (processPaths configPath loadRes env settings rules ps).2 ++
       (processPaths configPath loadRes env settings
          (processPaths configPath loadRes env settings rules ps).1
          qs).2) := by
  intro ps
  induction ps with
  | nil => intro qs rules; simp [processPaths]
  | cons p ps ih =>
    intro qs rules
    simp only [List.cons_append, processPaths, List.append_eq, ih,
      List.cons_append]

lemma processPaths_length {P : Type} [DecidableEq P] (configPath : P)
    (loadRes : Except LoadError (List Rule)) (env : P → PathEnv)
    (settings : Settings) :
    ∀ (ps : List P) (rules : List Rule),
    (processPaths configPath loadRes env settings rules ps).2.length =
      ps.length := by
  intro ps
  induction ps with
  | nil => intro rules; rfl
  | cons p ps ih => intro rules; simp [processPaths, ih]

/-- C7: an event whose kind is neither Created nor Modified is ignored
entirely — the rule set is unchanged and no path action happens; a
Created or Modified event processes its paths with `processPaths`,
which handles the paths sequentially (each path is processed from the
state its predecessors leave, and the actions concatenate) and
independently: every path of the list yields exactly one action, so no
outcome on an earlier path prevents processing of the later ones. -/
theorem router_event_dispatch {P : Type} [DecidableEq P] (configPath : P)
    (loadRes : Except LoadError (List Rule)) (env : P → PathEnv)
    (settings : Settings) (rules : List Rule) (evt : FileEventM P) :
    (evt.kind ≠ EventKindM.create → evt.kind ≠ EventKindM.modify →
      processEvent configPath loadRes env settings rules evt =
        (rules, [])) ∧
    (evt.kind = EventKindM.create ∨ evt.kind = EventKindM.modify →
      processEvent configPath loadRes env settings rules evt =
        processPaths configPath loadRes env settings rules evt.paths) ∧
    (∀ (ps qs : List P) (rules0 : List Rule),
      processPaths configPath loadRes env settings rules0 (ps ++ qs) =
        ((processPaths configPath loadRes env settings
            (processPaths configPath loadRes env settings rules0 ps).1
            qs).1,
         (processPaths configPath loadRes env settings rules0 ps).2 ++
         (processPaths configPath loadRes env settings
            (processPaths configPath loadRes env settings rules0 ps).1
            qs).2)) ∧
    (∀ (ps : List P) (rules0 : List Rule),
      (processPaths configPath loadRes env settings rules0 ps).2.length =
        ps.length) := by
  refine ⟨?_, ?_, processPaths_append configPath loadRes env settings,
    processPaths_length configPath loadRes env settings⟩
  · intro h1 h2
    cases hk : evt.kind with
    | create => exact absurd hk h1
    | modify => exact absurd hk h2
    | remove => simp [processEvent, hk]
    | other => simp [processEvent, hk]
  · intro h
    cases h with
    | inl h => simp [processEvent, h]
    | inr h => simp [processEvent, h]

/-- Witness for C7: a Remove event leaves the rules untouched with no
actions, and a three-path list always yields exactly three actions. -/
theorem router_event_dispatch_witness :
    processEvent (0 : Nat) (Except.ok [])
        (fun _ => ⟨true, some "f", fun _ => true, true⟩) ⟨1, 1⟩
        [catchAllRule] ⟨EventKindM.remove, [1, 2]⟩ =
      ([catchAllRule], []) ∧
    (processPaths (0 : Nat) (Except.ok [])
        (fun _ => ⟨true, some "f", fun _ => true, true⟩) ⟨1, 1⟩
        [catchAllRule] [1, 2, 3]).2.length = 3 := by
  have h := router_event_dispatch (0 : Nat) (Except.ok [])
    (fun _ => ⟨true, some "f", fun _ => true, true⟩) ⟨1, 1⟩
    [catchAllRule] ⟨EventKindM.remove, [1, 2]⟩
  exact ⟨h.1 (by decide) (by decide), h.2.2.2 [1, 2, 3] [catchAllRule]⟩

/-- C8: every event path receives exactly one classification — Config
precisely when it equals the watched configuration file path, and
Candidate precisely otherwise, never both — and the router reloads
rules exactly on Config paths while exactly Candidate paths go through
`apply_rename`. -/
theorem path_classification {P : Type} [DecidableEq P]
    (configPath p : P) (loadRes : Except LoadError (List Rule))
    (env : P → PathEnv) (settings : Settings) (rules : List Rule) :
    (classify configPath p = Classification.config ↔ p = configPath) ∧
    (classify configPath p = Classification.candidate ↔ p ≠ configPath) ∧
    ¬(classify configPath p = Classification.config ∧
      classify configPath p = Classification.candidate) ∧
    (classify configPath p = Classification.config →
      processPath configPath loadRes env settings rules p =
        (reloadStep rules loadRes,
         PathAction.configReload
           (match loadRes with
            | Except.ok _ => true
            | Except.error _ => false))) ∧
    (classify configPath p = Classification.candidate →
      processPath configPath loadRes env settings rules p =
        (rules,
         PathAction.candidateRename
           (apply_rename (env p) rules settings))) := by
  by_cases hp : p = configPath
  · refine ⟨by simp [classify, hp], by simp [classify, hp], ?_, ?_, ?_⟩
    · simp [classify, hp]
    · intro _; simp [processPath, hp]
    · intro hc; simp [classify, hp] at hc
  · refine ⟨by simp [classify, hp], by simp [classify, hp], ?_, ?_, ?_⟩
    · simp [classify, hp]
    · intro hc; simp [classify, hp] at hc
    · intro _; simp [processPath, hp]

/-- Witness for C8: over natural-number paths with configuration path
0, path 0 is classified Config and triggers the reload step, while
path 1 is classified Candidate and goes through `apply_rename`. -/
theorem path_classification_witness :
    classify (0 : Nat) 0 = Classification.config ∧
    classify (0 : Nat) 1 = Classification.candidate ∧
    processPath (0 : Nat) (Except.error (LoadError.invalidPattern "[" "x"))
        (fun _ => ⟨false, none, fun _ => true, true⟩) ⟨1, 1⟩
        [catchAllRule] 0 =
      ([catchAllRule], PathAction.configReload false) := by
  have h0 := path_classification (0 : Nat) 0
    (Except.error (LoadError.invalidPattern "[" "x"))
    (fun _ => ⟨false, none, fun _ => true, true⟩) ⟨1, 1⟩ [catchAllRule]
  have h1 := path_classification (0 : Nat) 1
    (Except.error (LoadError.invalidPattern "[" "x"))
    (fun _ => ⟨false, none, fun _ => true, true⟩) ⟨1, 1⟩ [catchAllRule]
  refine ⟨h0.1.mpr rfl, h1.2.1.mpr (by decide), ?_⟩
  have hc := h0.2.2.2.1 (h0.1.mpr rfl)
  rw [hc]
  rfl

lemma dropLit_sound : ∀ (lit s r : List Char),
    dropLit lit s = some r → s = lit ++ r := by
  intro lit
  induction lit with
  | nil =>
    intro s r h
    simp [dropLit] at h
    simp [h]
  | cons c cs ih =>
    intro s r h
    cases s with
    | nil => simp [dropLit] at h
    | cons d ds =>
      simp only [dropLit] at h
      by_cases hcd : c = d
      · rw [if_pos hcd] at h
        rw [List.cons_append, ← hcd, ih ds r h]
      · rw [if_neg hcd] at h
        exact absurd h (by simp)

lemma takeDigits_split : ∀ s : List Char,
    s = (takeDigits s).1 ++ (takeDigits s).2 := by
  intro s
  induction s with
  | nil => rfl
  | cons c cs ih =>
    by_cases hc : c.isDigit
    · simp only [takeDigits, hc, if_pos, List.cons_append]
      rw [← ih]
    · simp [takeDigits, hc]

lemma invMatchAt_sound (s g r : List Char)
    (h : invMatchAt s = some (g, r)) :
    s = "invoice_".data ++ g ++ ".pdf".data ++ r := by
  unfold invMatchAt at h
  cases h1 : dropLit ("invoice_".data) s with
  | none => rw [h1] at h; exact absurd h (by simp)
  | some s1 =>
    rw [h1] at h
    simp only at h
    by_cases he : (takeDigits s1).1.isEmpty
    · rw [if_pos he] at h
      exact absurd h (by simp)
    · rw [if_neg he] at h
      cases h2 : dropLit (".pdf".data) (takeDigits s1).2 with
      | none => rw [h2] at h; exact absurd h (by simp)
      | some s3 =>
        rw [h2] at h
        simp only [Option.some.injEq, Prod.mk.injEq] at h
        obtain ⟨hg, hr⟩ := h
        have hs : s = "invoice_".data ++ s1 := dropLit_sound _ _ _ h1
        have hsplit := takeDigits_split s1
        have hpdf : (takeDigits s1).2 = ".pdf".data ++ s3 :=
          dropLit_sound _ _ _ h2
        rw [hs, hsplit, hpdf, hg, hr]
        simp [List.append_assoc]

lemma invFind_sound : ∀ (s pre g r : List Char),
    invFind s = some (pre, g, r) →
    s = pre ++ "invoice_".data ++ g ++ ".pdf".data ++ r ∧
    ∀ i, i < pre.length → invMatchAt (s.drop i) = none := by
  intro s
  induction s with
  | nil =>
    intro pre g r h
    unfold invFind at h
    cases h1 : invMatchAt ([] : List Char) with
    | none => rw [h1] at h; exact absurd h (by simp)
    | some m =>
      rw [h1] at h
      simp only [Option.some.injEq, Prod.mk.injEq] at h
      obtain ⟨hpre, hg, hr⟩ := h
      subst hpre hg hr
      refine ⟨?_, by intro i hi; simp at hi⟩
      have hm := invMatchAt_sound [] m.1 m.2 h1
      simp only [List.nil_append]
      exact hm
  | cons c cs ih =>
    intro pre g r h
    unfold invFind at h
    cases h1 : invMatchAt (c :: cs) with
    | some m =>
      rw [h1] at h
      simp only [Option.some.injEq, Prod.mk.injEq] at h
      obtain ⟨hpre, hg, hr⟩ := h
      subst hpre hg hr
      refine ⟨?_, by intro i hi; simp at hi⟩
      have := invMatchAt_sound (c :: cs) m.1 m.2 h1
      simpa using this
    | none =>
      rw [h1] at h
      cases h2 : invFind cs with
      | none => rw [h2] at h; exact absurd h (by simp)
      | some f =>
        rw [h2] at h
        simp only [Option.some.injEq, Prod.mk.injEq] at h
        obtain ⟨hpre, hg, hr⟩ := h
        obtain ⟨hdec, hleft⟩ := ih f.1 f.2.1 f.2.2 (by rw [h2])
        subst hpre hg hr
        constructor
        · simp [hdec]
        · intro i hi
          cases i with
          | zero => simpa using h1
          | succ i2 =>
            simp only [List.length_cons, Nat.succ_lt_succ_iff] at hi
            simpa using hleft i2 hi

/-- C9: the engine substitutes only the leftmost occurrence of a
pattern.  Whenever the leftmost match of `invoice_(\d+)\.pdf`
decomposes the filename as `pre ++ match ++ rest` and the pattern also
matches inside `rest` (a later occurrence), the computed new name is
`pre` followed by the expanded template followed by `rest` verbatim —
the later occurrence is left unchanged — and no earlier position of
the filename carries a match. -/
theorem leftmost_only_substitution (s : String) (pre g rest : List Char)
    (h : invFind s.data = some (pre, g, rest))
    (_h2 : invoiceIsMatch ⟨rest⟩ = true) :
    invoiceReplace s =
      ⟨pre ++ ("INV-".data ++ g ++ ".pdf".data) ++ rest⟩ ∧
    s.data = pre ++ "invoice_".data ++ g ++ ".pdf".data ++ rest ∧
    ∀ i, i < pre.length → invMatchAt (s.data.drop i) = none := by
  obtain ⟨hdec, hleft⟩ := invFind_sound s.data pre g rest h
  exact ⟨by simp [invoiceReplace, h], hdec, hleft⟩

/-- Witness for C9: in `invoice_1.pdfinvoice_2.pdf` the pattern
matches twice; only the first occurrence is substituted. -/
theorem leftmost_only_substitution_witness :
    invoiceReplace "invoice_1.pdfinvoice_2.pdf" =
      "INV-1.pdfinvoice_2.pdf" := by
  have h := leftmost_only_substitution "invoice_1.pdfinvoice_2.pdf"
    [] ("1".data) ("invoice_2.pdf".data) (by decide) (by decide)
  rw [h.1]
  decide

end InvoiceHandler
